import Mathlib

/-! Shallow embedding of the wr jobqueue server, from src/jobqueue/server.go.
That file holds two versions of the server code: an older one (lines 1-936,
with an inline add/jrelease/decrementGroupCount) and a newer one (lines
937-1889, with token authentication, drain, limit groups). Handlers below are
translated from the version the corresponding code lives in; collaborators
whose code is not under src/ (queue package, limiter, boltdb facade,
tokenMatches, updateAfterExit, releaseJob) are modelled from the
specification, as marked in their doc comments. -/

namespace WR

/-- Error string constant, server.go line 42. -/
def ErrInternalError : String := "internal error"

/-- Error string constant, server.go line 43. -/
def ErrUnknownCommand : String := "unknown command"

/-- Error string constant, server.go line 44. -/
def ErrBadRequest : String := "bad request (missing arguments?)"

/-- Error string constant, server.go line 45. -/
def ErrBadJob : String := "bad job (not in queue or correct sub-queue)"

/-- Error string constant, server.go line 54. -/
def ErrMustReserve : String := "you must Reserve() a Job before passing it to other methods"

/-- Error string constant, server.go line 55. -/
def ErrDBError : String := "failed to use database"

/-- Error string constant, server.go line 51. -/
def ErrQueueClosed : String := "queue closed"

/-- Error string constant, server.go line 50. -/
def ErrClosedStop : String := "queues closed due to manual Stop()"

/-- Modelled from the spec: the ErrPermissionDenied constant of the newer
server version; its definition is not under src/. -/
def ErrPermissionDenied : String := "permission denied"

/-- Modelled from the spec: the fixed token length of the newer server
version (spec section 6, token length fixed per server); the constant is not
under src/. -/
def tokenLength : Nat := 32

/-- Modelled from the spec: tokenMatches compares tokens in constant time;
its observable result is equality (constant-timeness is a timing property
outside a shallow embedding). -/
def tokenMatches (a b : List Nat) : Prop := a = b

instance (a b : List Nat) : Decidable (tokenMatches a b) := by
  unfold tokenMatches
  infer_instance

/-- ClientReleaseDelay (spec section 6; 30 seconds illustrative); the
constant is not under src/ and only its identity matters here. -/
def ClientReleaseDelay : Nat := 30

/-- Association list lookup (models a Go map read). -/
def alGet {α : Type} : List (String × α) → String → Option α
  | [], _ => none
  | p :: l, k => if p.1 = k then some p.2 else alGet l k

/-- Association list write (models a Go map write). -/
def alSet {α : Type} : List (String × α) → String → α → List (String × α)
  | [], k, v => [(k, v)]
  | p :: l, k, v => if p.1 = k then (k, v) :: l else p :: alSet l k v

/-- Association list delete (models a Go map delete). -/
def alErase {α : Type} : List (String × α) → String → List (String × α)
  | [], _ => []
  | p :: l, k => if p.1 = k then alErase l k else p :: alErase l k

/-- Sub-queues of the queue primitive (queue package; spec section 4.1).
The removed state is modelled by absence from the queue list. -/
inductive ItemState where
  | delay
  | ready
  | run
  | bury
  | dependent
deriving DecidableEq

/-- Runner-reported end-of-execution observations (the JobEndState carried by
a client request). An end time of 0 models the Go zero time. -/
structure JobEndState where
  exited : Bool
  exitcode : Int
  endTime : Nat
deriving DecidableEq

/-- The Job model (spec section 3). Execution-observation fields no claim
reads (peak RAM, peak disk, host IP, cpu time) are elided. A start or end
time of 0 models the Go zero time (time.Time.IsZero); a reservedBy of 0
models the zero UUID. -/
structure Job where
  key : String
  repGroup : String
  schedulerGroup : String
  req : Nat
  exited : Bool
  exitcode : Int
  pid : Int
  host : String
  startTime : Nat
  endTime : Nat
  attempts : Nat
  untilBuried : Int
  retries : Nat
  reservedBy : Nat
  state : String
  failReason : String
  envKey : String
  killCalled : Bool
  lost : Bool
  limitGroupsIncremented : List String
deriving DecidableEq

/-- A queue item: sub-queue membership and queueing parameters for one key.
The Job itself lives in the jobs heap of the Server (the Go queue stores a
pointer in Item.Data). TTR timers are real-time behaviour and not modelled. -/
structure QItem where
  key : String
  istate : ItemState
  delay : Nat
  reserveGroup : String
deriving DecidableEq

/-- Modelled from the spec: the limiter (spec section 4.4), named semaphores
with an all-or-nothing Increment and an unconditional Decrement; its code is
not under src/. A group with no configured limit is unlimited. -/
structure Limiter where
  limits : List (String × Int)
  counts : List (String × Int)
deriving DecidableEq

/-- Modelled from the spec: the DB facade (spec section 6), a live bucket and
a complete bucket keyed by job key, plus a content-addressed env store. -/
structure DB where
  live : List (String × Job)
  complete : List (String × Job)
  envs : List String
deriving DecidableEq

/-- The server state (server.go Server struct, both versions): the queue,
the jobs heap (Go reaches jobs through Item.Data pointers), the RepGroup
index rpl, the scheduler-group coordinator maps, the DB, the limiter, the
runner command rc, the auth token, lifecycle flags, and a trace of
Sched.Schedule calls (group and count) standing in for the external
scheduler adapter. -/
structure Server where
  q : List QItem
  jobs : List (String × Job)
  rpl : List (String × List String)
  sgroupcounts : List (String × Int)
  sgtr : List (String × Nat)
  db : DB
  limiter : Limiter
  rc : String
  token : List Nat
  up : Bool
  drain : Bool
  qDestroyed : Bool
  killRunners : Bool
  schedCalls : List (String × Int)
deriving DecidableEq

/-- A client request (the fields of clientRequest the modelled methods read). -/
structure ClientRequest where
  method : String
  token : List Nat
  clientID : Nat
  schedulerGroup : String
  firstReserve : Bool
  timeout : Nat
  keys : Option (List String)
  job : Option Job
  jobEndState : JobEndState
  env : Option String
  jobs : Option (List Job)
deriving DecidableEq

/-- The serverResponse fields the modelled methods write. A reserved job is
reported by its key (the real reply carries a snapshot copy of the job). -/
structure Reply where
  err : String
  added : Nat
  existed : Nat
  jobKey : Option String
  killCalled : Bool
deriving DecidableEq

/-- The reply of a method that returns nothing (serverResponse zero value). -/
def emptyReply : Reply :=
  { err := "", added := 0, existed := 0, jobKey := none, killCalled := false }

/-- An error-only reply, as sent on any non-empty srerr. -/
def errReply (e : String) : Reply := { emptyReply with err := e }

/-- Modelled from the spec: queue package Get - the item with the given key,
if present in a non-removed sub-queue. -/
def qGet : List QItem → String → Option QItem
  | [], _ => none
  | it :: q, k => if it.key = k then some it else qGet q k

/-- Move the item with the given key to another sub-queue (helper for the
queue package operations). -/
def qSetState : List QItem → String → ItemState → List QItem
  | [], _, _ => []
  | it :: q, k, st => if it.key = k then { it with istate := st } :: q else it :: qSetState q k st

/-- Update the delay parameter of the item with the given key. -/
def qSetDelayAux : List QItem → String → Nat → List QItem
  | [], _, _ => []
  | it :: q, k, d => if it.key = k then { it with delay := d } :: q else it :: qSetDelayAux q k d

/-- Modelled from the spec: queue package SetDelay - updates the delay
parameter; fails when the key is absent. -/
def qSetDelay (q : List QItem) (k : String) (d : Nat) : Option (List QItem) :=
  if (qGet q k).isSome then some (qSetDelayAux q k d) else none

/-- Remove the item with the given key (helper). -/
def qRemoveAux : List QItem → String → List QItem
  | [], _ => []
  | it :: q, k => if it.key = k then q else it :: qRemoveAux q k

/-- Modelled from the spec: queue package Remove - moves an item from any
sub-queue to removed (here: drops it); fails when the key is absent. -/
def qRemove (q : List QItem) (k : String) : Option (List QItem) :=
  if (qGet q k).isSome then some (qRemoveAux q k) else none

/-- Modelled from the spec: queue package Bury - moves an item from run (or
ready) to bury. -/
def qBury (q : List QItem) (k : String) : Option (List QItem) :=
  match qGet q k with
  | some it =>
    if it.istate = ItemState.run ∨ it.istate = ItemState.ready then
      some (qSetState q k ItemState.bury)
    else none
  | none => none

/-- Modelled from the spec: queue package Kick - moves an item from bury to
ready. -/
def qKick (q : List QItem) (k : String) : Option (List QItem) :=
  match qGet q k with
  | some it =>
    if it.istate = ItemState.bury then some (qSetState q k ItemState.ready) else none
  | none => none

/-- Whether the item under a key is currently in the bury sub-queue. -/
def isBuried (q : List QItem) (k : String) : Bool :=
  match qGet q k with
  | some it => decide (it.istate = ItemState.bury)
  | none => false

/-- The group argument the reserve handler passes to queue Reserve: the
scheduler group when one was supplied, else none. -/
def reserveGroupArg (cr : ClientRequest) : Option String :=
  if cr.schedulerGroup ≠ "" then some cr.schedulerGroup else none

/-- Modelled from the spec: queue package Release - moves an item from run to
the delay sub-queue. -/
def qRelease (q : List QItem) (k : String) : Option (List QItem) :=
  match qGet q k with
  | some it =>
    if it.istate = ItemState.run then some (qSetState q k ItemState.delay) else none
  | none => none

/-- Eligibility of an item for Reserve: ready, and matching the reserve group
when one is supplied. -/
def qEligible (it : QItem) (group : Option String) : Bool :=
  decide (it.istate = ItemState.ready) &&
    (match group with
     | some g => decide (it.reserveGroup = g)
     | none => true)

/-- Modelled from the spec: queue package Reserve - pops an eligible ready
item and moves it to run, returning the (updated) item; none models
ErrNothingReady. The priority/FIFO choice among eligible items does not bear
on any claim and is modelled as first match. -/
def qReserve : List QItem → Option String → Option (QItem × List QItem)
  | [], _ => none
  | it :: q, group =>
    if qEligible it group then
      some ({ it with istate := ItemState.run }, { it with istate := ItemState.run } :: q)
    else
      match qReserve q group with
      | some (r, q2) => some (r, it :: q2)
      | none => none

/-- Number of occurrences of a string in a list (models counting jobs per
scheduler group). -/
def occ : List String → String → Nat
  | [], _ => 0
  | g :: l, h => (if g = h then 1 else 0) + occ l h

/-- The distinct strings of a list (models ranging over a Go map built by
counting; iteration order is arbitrary in Go and fixed here). -/
def gkeys : List String → List String
  | [] => []
  | g :: l => if g ∈ gkeys l then gkeys l else g :: gkeys l

/-- Add d to the count of one group in a limiter count list. -/
def bump (c : List (String × Int)) (g : String) (d : Int) : List (String × Int) :=
  alSet c g ((alGet c g).getD 0 + d)

/-- The current count of a limit group (absent means 0). -/
def lcount (c : List (String × Int)) (g : String) : Int := (alGet c g).getD 0

/-- Modelled from the spec: limiter Increment (spec section 4.4) - atomically
checks every group against its configured limit; if all fit, increments all
and succeeds, else modifies nothing and fails. -/
def lIncrement (l : Limiter) (gs : List String) : Option Limiter :=
  if gs.all fun g =>
      match alGet l.limits g with
      | some lim => decide (lcount l.counts g < lim)
      | none => true then
    some { l with counts := gs.foldl (fun c g => bump c g 1) l.counts }
  else none

/-- Modelled from the spec: limiter Decrement (spec section 4.4) -
unconditional. -/
def lDecrement (l : Limiter) (gs : List String) : Limiter :=
  { l with counts := gs.foldl (fun c g => bump c g (-1)) l.counts }

/-- Modelled from the spec: DB storeEnv - content-addressed, idempotent; the
env blob is its own key. -/
def dbStoreEnv (d : DB) (env : String) : DB :=
  { d with envs := if env ∈ d.envs then d.envs else d.envs ++ [env] }

/-- Modelled from the spec: DB storeNewJobs - atomic batch write to the live
bucket. -/
def dbStoreNewJobs (d : DB) (js : List Job) : DB :=
  { d with live := js.foldl (fun l j => alSet l j.key j) d.live }

/-- Modelled from the spec: DB archiveJob - moves a record from the live
bucket to the complete bucket. -/
def dbArchiveJob (d : DB) (k : String) (j : Job) : DB :=
  { d with live := alErase d.live k, complete := alSet d.complete k j }

/-- Modelled from the spec: DB updateJobAfterChange / updateJobAfterExit -
idempotent-by-key update of the live bucket. -/
def dbUpdateLive (d : DB) (k : String) (j : Job) : DB :=
  { d with live := alSet d.live k j }

/-- Insert a key into the rpl RepGroup index (server.go lines 429-438). -/
def rplInsert (r : List (String × List String)) (rg k : String) :
    List (String × List String) :=
  match alGet r rg with
  | some ks => alSet r rg (if k ∈ ks then ks else ks ++ [k])
  | none => alSet r rg [k]

/-- Delete a key from the rpl RepGroup index (server.go lines 1317-1321). -/
def rplDelete (r : List (String × List String)) (rg k : String) :
    List (String × List String) :=
  match alGet r rg with
  | some ks => alSet r rg (ks.filter fun x => x ≠ k)
  | none => r

/-- Modelled from the spec: Job.updateAfterExit (spec section 4.2; its code
is not under src/) - merges the runner-reported exit observations into the
job, decrements the limit groups the job had incremented on reservation, and
clears killCalled. -/
def updateAfterExit (j : Job) (es : JobEndState) (l : Limiter) : Job × Limiter :=
  ({ j with
      exited := es.exited
      exitcode := es.exitcode
      endTime := es.endTime
      killCalled := false
      limitGroupsIncremented := [] },
   lDecrement l j.limitGroupsIncremented)

/-- Result of getij. -/
inductive GetIJ where
  | fail (e : String)
  | ok (it : QItem) (j : Job)
deriving DecidableEq

/-- getij (server.go lines 1727-1746, identical checks in the old version at
lines 827-846): the common precondition of the j* methods. A request must
carry a Job; the key must be in the queue and its item in the run sub-queue;
the requesting client must be the reservation owner. -/
def getij (s : Server) (cr : ClientRequest) : GetIJ :=
  match cr.job with
  | none => GetIJ.fail ErrBadRequest
  | some crJob =>
    match qGet s.q crJob.key with
    | none => GetIJ.fail ErrBadJob
    | some it =>
      if it.istate ≠ ItemState.run then GetIJ.fail ErrBadJob
      else
        match alGet s.jobs it.key with
        | none => GetIJ.fail ErrBadJob
        | some job =>
          if cr.clientID ≠ job.reservedBy then GetIJ.fail ErrMustReserve
          else GetIJ.ok it job

/-- decrementGroupCount (server.go lines 813-823, old version; the newer
version passes the group string directly): decrement the count of the
scheduler group; when the result is 0 or below, delete the group from
sgroupcounts and sgtr, else call Sched.Schedule with the new count. -/
def decrementGroupCount (s : Server) (g : String) : Server :=
  let n := (alGet s.sgroupcounts g).getD 0 - 1
  if n ≤ 0 then
    { s with sgroupcounts := alErase s.sgroupcounts g, sgtr := alErase s.sgtr g }
  else
    { s with
        sgroupcounts := alSet s.sgroupcounts g n
        schedCalls := s.schedCalls ++ [(g, n)] }

/-- The ready-added callback (server.go lines 339-374, old version): assign
each newly ready job a scheduler group via Sched.Place (the external
adapter, passed in as the place function), record its requirements in sgtr
on first sight, and - when a runner command is configured - set
sgroupcounts of each group to the batch count and call Sched.Schedule. -/
def readyAddedCallback (s : Server) (jobdata : List Job) (place : Job → String) : Server :=
  let jobs2 := jobdata.foldl (fun m j => alSet m j.key { j with schedulerGroup := place j }) s.jobs
  let groups := jobdata.map place
  let sgtr2 := jobdata.foldl
    (fun t j => if (alGet t (place j)).isSome then t else alSet t (place j) j.req) s.sgtr
  if s.rc = "" then { s with jobs := jobs2, sgtr := sgtr2 }
  else
    (gkeys groups).foldl
      (fun st g =>
        { st with
            sgroupcounts := alSet st.sgroupcounts g (occ groups g : Int)
            schedCalls := st.schedCalls ++ [(g, (occ groups g : Int))] })
      { s with jobs := jobs2, sgtr := sgtr2 }

/-- Modelled from the spec: the scheduler-group / limit-group separator of
Job.generateSchedulerGroup (not under src/); the exact character is
immaterial. -/
def jobSchedLimitGroupSeparator : Char := '!'

/-- Modelled from the spec: the separator between limit groups in the
scheduler-group suffix (not under src/). -/
def jobLimitGroupSeparator : Char := ','

/-- Split a character list on a separator character (strings.Split for a
one-character separator). -/
def splitOnChar (sep : Char) : List Char → List (List Char)
  | [] => [[]]
  | c :: cs =>
    if c = sep then [] :: splitOnChar sep cs
    else
      match splitOnChar sep cs with
      | h :: t => (c :: h) :: t
      | [] => [[c]]

/-- schedGroupToLimitGroups (server.go lines 1870-1876): a scheduler group
may be suffixed with limit groups; extract them, or return none when the
group does not split in exactly two parts. -/
def schedGroupToLimitGroups (group : String) : List String :=
  match splitOnChar jobSchedLimitGroupSeparator group.toList with
  | [_, b] => (splitOnChar jobLimitGroupSeparator b).map fun l => String.mk l
  | _ => []

/-- Result of reserveWithLimits: an item, or nothing ready. -/
inductive RWLResult where
  | found (it : QItem)
  | nothingReady
deriving DecidableEq

/-- reserveWithLimits (server.go lines 1834-1865): reserve the next item,
optionally limited to a scheduler group. If a group was supplied and is
suffixed with limit groups, those groups are incremented all-or-nothing; on
increment failure act as if the queue were empty; if nothing was reserved
the groups are decremented again; if an item was reserved the incremented
groups are recorded on its job. -/
def reserveWithLimits (s : Server) (group : Option String) : Server × RWLResult :=
  match group with
  | some g =>
    let limitGroups := schedGroupToLimitGroups g
    if limitGroups ≠ [] then
      match lIncrement s.limiter limitGroups with
      | none => (s, RWLResult.nothingReady)
      | some l1 =>
        match qReserve s.q (some g) with
        | none => ({ s with limiter := lDecrement l1 limitGroups }, RWLResult.nothingReady)
        | some (it, q2) =>
          match alGet s.jobs it.key with
          | some j =>
            ({ s with
                limiter := l1
                q := q2
                jobs := alSet s.jobs it.key { j with limitGroupsIncremented := limitGroups } },
             RWLResult.found it)
          | none => ({ s with limiter := l1, q := q2 }, RWLResult.found it)
    else
      match qReserve s.q (some g) with
      | none => (s, RWLResult.nothingReady)
      | some (it, q2) => ({ s with q := q2 }, RWLResult.found it)
  | none =>
    match qReserve s.q none with
    | none => (s, RWLResult.nothingReady)
    | some (it, q2) => ({ s with q := q2 }, RWLResult.found it)

/-- The reserve handler (server.go lines 1103-1210, newer version). A zero
ClientID is rejected; during drain the body is skipped and the empty reply
returned. With a scheduler group, a first reservation is skipped (acting as
if nothing were ready) when a runner command is configured and the group
count is absent or 0. The 1-second polling loop repeats a pure function of
an unchanged state, so timing out with the empty reply is its sequential
behaviour and it is not unrolled. On success the job is reset for a fresh
run, its reservation owner set, and SetDelay(ClientReleaseDelay) applied. -/
def handleReserve (s : Server) (cr : ClientRequest) : Server × Reply :=
  if cr.clientID = 0 then (s, errReply ErrBadRequest)
  else if s.drain then (s, emptyReply)
  else
    let step :=
      if cr.schedulerGroup ≠ "" then
        if cr.firstReserve = true ∧ s.rc ≠ "" ∧
            ((alGet s.sgroupcounts cr.schedulerGroup).getD 0 = 0) then
          (s, RWLResult.nothingReady)
        else reserveWithLimits s (some cr.schedulerGroup)
      else reserveWithLimits s none
    match step.2 with
    | RWLResult.nothingReady => (step.1, emptyReply)
    | RWLResult.found it =>
      let s1 := step.1
      let jobs2 :=
        match alGet s1.jobs it.key with
        | some j =>
          alSet s1.jobs it.key
            { j with
                reservedBy := cr.clientID
                exited := false
                pid := 0
                host := ""
                startTime := 0
                endTime := 0
                exitcode := -1 }
        | none => s1.jobs
      let q2 := (qSetDelay s1.q it.key ClientReleaseDelay).getD s1.q
      ({ s1 with jobs := jobs2, q := q2 }, { emptyReply with jobKey := some it.key })

/-- The jstart handler (server.go lines 1211-1241): update the started-job
properties. Rejects a non-positive pid or empty host; on success records the
execution locus, sets StartTime to now, clears kill/lost flags, and persists
via updateJobAfterChange. HostToID is external and elided. -/
def handleJstart (s : Server) (cr : ClientRequest) (now : Nat) : Server × Reply :=
  match getij s cr with
  | GetIJ.fail e => (s, errReply e)
  | GetIJ.ok it job =>
    let crJob := (cr.job).getD job
    if crJob.pid ≤ 0 ∨ crJob.host = "" then (s, errReply ErrBadRequest)
    else
      let job2 :=
        { job with
            host := crJob.host
            pid := crJob.pid
            startTime := now
            endTime := 0
            attempts := job.attempts + 1
            killCalled := false
            lost := false
            state := "running" }
      ({ s with jobs := alSet s.jobs it.key job2, db := dbUpdateLive s.db it.key job2 },
       emptyReply)

/-- The jtouch handler (server.go lines 1242-1280): if kill has been called
for the job (or server-wide), reply KillCalled without touching; else re-arm
the TTR (a real-time timer, identity here) and clear a Lost flag. -/
def handleJtouch (s : Server) (cr : ClientRequest) : Server × Reply :=
  match getij s cr with
  | GetIJ.fail e => (s, errReply e)
  | GetIJ.ok it job =>
    let killCalled := job.killCalled ∨ s.killRunners
    if killCalled then (s, { emptyReply with killCalled := true })
    else
      if job.lost then
        ({ s with jobs := alSet s.jobs it.key { job with lost := false, endTime := 0 } },
         emptyReply)
      else (s, emptyReply)

/-- The jarchive handler (server.go lines 1281-1330, newer version): after
getij, merge the exit observations, re-check the item is still in run,
require a clean exit (Exited, Exitcode 0, start and end times set), then
archive to the DB complete bucket, remove from the queue, drop the key from
rpl, and decrement the scheduler group count (done in a goroutine in the
source; applied in place here). The success of the external DB archiveJob
write is injected as the aOK parameter. -/
def handleJarchive (s : Server) (cr : ClientRequest) (aOK : Bool) : Server × Reply :=
  match getij s cr with
  | GetIJ.fail e => (s, errReply e)
  | GetIJ.ok it job =>
    let m := updateAfterExit job cr.jobEndState s.limiter
    let s1 := { s with jobs := alSet s.jobs it.key m.1, limiter := m.2 }
    if it.istate ≠ ItemState.run then (s1, errReply ErrBadJob)
    else if m.1.exited = false ∨ m.1.exitcode ≠ 0 ∨ m.1.startTime = 0 ∨ m.1.endTime = 0 then
      (s1, errReply ErrBadRequest)
    else
      let job2 := { m.1 with state := "complete", failReason := "" }
      let s2 := { s1 with jobs := alSet s1.jobs it.key job2 }
      if aOK = false then (s2, errReply ErrDBError)
      else
        let s3 := { s2 with db := dbArchiveJob s2.db it.key job2 }
        match qRemove s3.q it.key with
        | none => (s3, errReply ErrInternalError)
        | some q2 =>
          (decrementGroupCount
            { s3 with q := q2, rpl := rplDelete s3.rpl job2.repGroup it.key }
            job2.schedulerGroup,
           emptyReply)

/-- The core of releasing a job (server.go lines 615-645, old version,
inline in its jrelease handler): record the fail reason; if the job exited
non-zero, decrement UntilBuried; if UntilBuried is now 0 or below, bury the
item, else SetDelay(Timeout) and Release it to the delay sub-queue. -/
def releaseJobCore (s : Server) (it : QItem) (job : Job) (fr : String) (timeout : Nat) :
    Server × Reply :=
  let job1 := { job with failReason := fr }
  let job2 :=
    if job1.exited = true ∧ job1.exitcode ≠ 0 then
      { job1 with untilBuried := job1.untilBuried - 1 }
    else job1
  let s1 := { s with jobs := alSet s.jobs it.key job2 }
  if job2.untilBuried ≤ 0 then
    match qBury s1.q it.key with
    | some q2 => ({ s1 with q := q2 }, emptyReply)
    | none => (s1, errReply ErrInternalError)
  else
    match qSetDelay s1.q it.key timeout with
    | some q2 =>
      match qRelease q2 it.key with
      | some q3 => ({ s1 with q := q3 }, emptyReply)
      | none => ({ s1 with q := q2 }, errReply ErrInternalError)
    | none => (s1, errReply ErrInternalError)

/-- The jrelease handler of the old version (server.go lines 615-645),
which implements the release logic inline after getij. -/
def handleJreleaseOld (s : Server) (cr : ClientRequest) : Server × Reply :=
  match getij s cr with
  | GetIJ.fail e => (s, errReply e)
  | GetIJ.ok it job =>
    releaseJobCore s it job (((cr.job).map Job.failReason).getD "") cr.timeout

/-- The jrelease handler of the newer version (server.go lines 1331-1344):
getij, then releaseJob. The body of releaseJob is not under src/ and is
modelled from the spec (merge exit info, then the same decrement / bury /
delay-and-release logic as the old inline handler). -/
def handleJrelease (s : Server) (cr : ClientRequest) : Server × Reply :=
  match getij s cr with
  | GetIJ.fail e => (s, errReply e)
  | GetIJ.ok it job =>
    let m := updateAfterExit job cr.jobEndState s.limiter
    releaseJobCore { s with limiter := m.2 } it m.1
      (((cr.job).map Job.failReason).getD "") cr.timeout

/-- The jbury handler (server.go lines 1345-1366): merge exit info, record
the fail reason, bury the item, decrement the scheduler group count, and
persist via updateJobAfterExit. -/
def handleJbury (s : Server) (cr : ClientRequest) : Server × Reply :=
  match getij s cr with
  | GetIJ.fail e => (s, errReply e)
  | GetIJ.ok it job =>
    let m := updateAfterExit job cr.jobEndState s.limiter
    let job2 :=
      { m.1 with
          failReason := ((cr.job).map Job.failReason).getD ""
          state := "buried" }
    let s1 := { s with jobs := alSet s.jobs it.key job2, limiter := m.2 }
    match qBury s1.q it.key with
    | none => (s1, errReply ErrInternalError)
    | some q2 =>
      let s2 := decrementGroupCount { s1 with q := q2 } job2.schedulerGroup
      ({ s2 with db := dbUpdateLive s2.db it.key job2 }, emptyReply)

/-- One step of the jkick loop (server.go lines 1375-1392): a key whose item
is currently buried is kicked to ready, its UntilBuried reset to Retries+1,
its state set to ready, the change persisted, and the count incremented;
other keys are skipped. -/
def kickStep (acc : Server × Nat) (k : String) : Server × Nat :=
  match qGet acc.1.q k with
  | none => acc
  | some it =>
    if it.istate ≠ ItemState.bury then acc
    else
      match qKick acc.1.q k with
      | none => acc
      | some q2 =>
        match alGet acc.1.jobs k with
        | none => acc
        | some job =>
          let job2 := { job with untilBuried := (job.retries : Int) + 1, state := "ready" }
          ({ acc.1 with
              q := q2
              jobs := alSet acc.1.jobs k job2
              db := dbUpdateLive acc.1.db k job2 },
           acc.2 + 1)

/-- The jkick handler (server.go lines 1367-1394): nil Keys is rejected;
otherwise each listed key currently in bury is kicked, and the reply counts
the kicked jobs in Existed. -/
def handleJkick (s : Server) (cr : ClientRequest) : Server × Reply :=
  match cr.keys with
  | none => (s, errReply ErrBadRequest)
  | some ks =>
    let r := ks.foldl kickStep (s, 0)
    (r.1, { emptyReply with existed := r.2 })

/-- The request dispatcher of the newer version (server.go lines 975-1681),
restricted to the methods the claims exercise. Every request except ping
must carry a token of the expected length equal to the server token
(constant-time compared); then the up/drain/shutdown gate applies; then the
per-method handlers. Methods of the source not modelled here (add, jdel,
jmod, jkill, getbc, getbr, getin, getbcs, getsetlg, backup, pause, resume,
drain, shutdown, upload, sstats) fall to the default arm, which no claim
reads. The aOK flag injects the success of the external DB write of
jarchive, and now stands for time.Now in jstart. -/
def handleRequest (s : Server) (cr : ClientRequest) (aOK : Bool) (now : Nat) :
    Server × Reply :=
  if (cr.token.length ≠ tokenLength ∨ ¬ tokenMatches cr.token s.token) ∧ cr.method ≠ "ping" then
    (s, errReply ErrPermissionDenied)
  else if s.qDestroyed ∨ (s.up = false ∧ s.drain = false) then
    (s, errReply ErrClosedStop)
  else
    match cr.method with
    | "ping" => (s, emptyReply)
    | "reserve" => handleReserve s cr
    | "jstart" => handleJstart s cr now
    | "jtouch" => handleJtouch s cr
    | "jarchive" => handleJarchive s cr aOK
    | "jrelease" => handleJrelease s cr
    | "jbury" => handleJbury s cr
    | "jkick" => handleJkick s cr
    | _ => (s, errReply ErrUnknownCommand)

/-- AddMany (queue package, modelled from the spec, section 4.1): add the
item definitions; a key already present in a non-removed sub-queue is a
duplicate and is not modified; new items enter the ready sub-queue (their
delay is 0 and they carry no dependencies). Returns the queue, the jobs
heap, the added count and the duplicate count. -/
def qAddMany (q : List QItem) (jm : List (String × Job)) (js : List Job) :
    List QItem × List (String × Job) × Nat × Nat :=
  js.foldl
    (fun acc j =>
      if (qGet acc.1 j.key).isSome then (acc.1, acc.2.1, acc.2.2.1, acc.2.2.2 + 1)
      else
        (acc.1 ++ [{ key := j.key, istate := ItemState.ready, delay := 0, reserveGroup := "" }],
         alSet acc.2.1 j.key j, acc.2.2.1 + 1, acc.2.2.2))
    (q, jm, 0, 0)

/-- The add handler of the old version (server.go lines 387-443): reject a
nil Env or Jobs; store the Env; stamp each job with the env key and
UntilBuried 3; persist the batch with storeNewJobs before touching memory;
only then AddMany into the queue, update the rpl index, and reply with the
added and duplicate counts. The success of the two external DB writes is
injected as envOK and jobsOK. -/
def handleAddOld (s : Server) (env : Option String) (jobs : Option (List Job))
    (envOK jobsOK : Bool) : Server × Reply :=
  match env, jobs with
  | some e, some js =>
    if envOK = false then (s, errReply ErrDBError)
    else
      let js2 := js.map fun j => { j with envKey := e, untilBuried := 3 }
      let d1 := dbStoreEnv s.db e
      if jobsOK = false then ({ s with db := d1 }, errReply ErrDBError)
      else
        let d2 := dbStoreNewJobs d1 js2
        let r := qAddMany s.q s.jobs js2
        let rpl2 := js2.foldl (fun m j => rplInsert m j.repGroup j.key) s.rpl
        ({ s with db := d2, q := r.1, jobs := r.2.1, rpl := rpl2 },
         { err := "", added := r.2.2.1, existed := r.2.2.2, jobKey := none, killCalled := false })
  | _, _ => (s, errReply ErrBadRequest)

/-- A zero-valued job, used as a base for the concrete evaluation theorems. -/
def baseJob : Job :=
  { key := ""
    repGroup := ""
    schedulerGroup := ""
    req := 0
    exited := false
    exitcode := 0
    pid := 0
    host := ""
    startTime := 0
    endTime := 0
    attempts := 0
    untilBuried := 3
    retries := 2
    reservedBy := 0
    state := ""
    failReason := ""
    envKey := ""
    killCalled := false
    lost := false
    limitGroupsIncremented := [] }

/-- An empty up server with a 32-byte token, used as a base for the concrete
evaluation theorems. -/
def baseServer : Server :=
  { q := []
    jobs := []
    rpl := []
    sgroupcounts := []
    sgtr := []
    db := { live := [], complete := [], envs := [] }
    limiter := { limits := [], counts := [] }
    rc := "runner %s %s"
    token := List.replicate 32 1
    up := true
    drain := false
    qDestroyed := false
    killRunners := false
    schedCalls := [] }

/-- A request carrying the matching token, used as a base for the concrete
evaluation theorems. -/
def baseRequest : ClientRequest :=
  { method := ""
    token := List.replicate 32 1
    clientID := 0
    schedulerGroup := ""
    firstReserve := false
    timeout := 0
    keys := none
    job := none
    jobEndState := { exited := false, exitcode := 0, endTime := 0 }
    env := none
    jobs := none }

/-- A job reserved by client 7 under key k1 (concrete-evaluation fixture). -/
def j1 : Job := { baseJob with key := "k1", reservedBy := 7 }

/-- The queue item for j1, in the run sub-queue (fixture). -/
def it1 : QItem := { key := "k1", istate := ItemState.run, delay := 0, reserveGroup := "" }

/-- A server holding j1 reserved in the run sub-queue (fixture). -/
def srv1 : Server :=
  { baseServer with
      q := [it1]
      jobs := [("k1", j1)]
      rpl := [("rg", ["k1"])]
      sgroupcounts := [("g", 2)]
      sgtr := [("g", 1)] }

/-- A server whose scheduler-group count for g is exactly 1 (fixture). -/
def srv3 : Server :=
  { baseServer with sgroupcounts := [("g", 1)], sgtr := [("g", 5)] }

/-- A ready item whose reserve group carries a limit-group suffix (fixture). -/
def it10 : QItem :=
  { key := "k1", istate := ItemState.ready, delay := 0, reserveGroup := "b!lg1" }

/-- A server with one ready item under limit group lg1, limit 1 (fixture). -/
def srv10 : Server :=
  { baseServer with
      q := [it10]
      jobs := [("k1", { baseJob with key := "k1" })]
      limiter := { limits := [("lg1", 1)], counts := [] } }

/-- A ready item with reserve group g under key k (fixture). -/
def it4 : QItem := { key := "k", istate := ItemState.ready, delay := 0, reserveGroup := "g" }

/-- A server with no runner command, a ready item for group g and no
sgroupcounts entry (fixture). -/
def srv4a : Server :=
  { baseServer with rc := "", q := [it4], jobs := [("k", { baseJob with key := "k" })] }

/-- The same server as srv4a but draining and with a runner command
(fixture). -/
def srv4b : Server :=
  { baseServer with drain := true, q := [it4], jobs := [("k", { baseJob with key := "k" })] }

/-- The same server with a runner command configured and no sgroupcounts
entry (fixture). -/
def srv4skip : Server :=
  { baseServer with q := [it4], jobs := [("k", { baseJob with key := "k" })] }

/-- A first-reserve request for group g (fixture). -/
def cr4a : ClientRequest :=
  { baseRequest with
      method := "reserve"
      clientID := 3
      schedulerGroup := "g"
      firstReserve := true }

/-- A non-first reserve request for group g (fixture). -/
def cr4b : ClientRequest :=
  { baseRequest with method := "reserve", clientID := 3, schedulerGroup := "g" }

/-- A reserve request with the zero ClientID (fixture). -/
def cr4c : ClientRequest :=
  { baseRequest with method := "reserve", clientID := 0, schedulerGroup := "g" }

/-- A ready item with no reserve group (fixture). -/
def it6 : QItem := { key := "k", istate := ItemState.ready, delay := 0, reserveGroup := "" }

/-- A draining (and not up) server with one ready item (fixture). -/
def srv6r : Server :=
  { baseServer with
      drain := true
      up := false
      q := [it6]
      jobs := [("k", { baseJob with key := "k" })] }

/-- A draining (and not up) server with a started reserved job (fixture). -/
def srv6a : Server :=
  { srv1 with
      drain := true
      up := false
      jobs := [("k1", { j1 with schedulerGroup := "g", startTime := 4 })] }

/-- A buried item (fixture). -/
def itb : QItem := { key := "b1", istate := ItemState.bury, delay := 0, reserveGroup := "" }

/-- A ready item (fixture). -/
def itr : QItem := { key := "r1", istate := ItemState.ready, delay := 0, reserveGroup := "" }

/-- A server with one buried and one ready item (fixture). -/
def srv8 : Server :=
  { baseServer with
      q := [itb, itr]
      jobs := [("b1", { baseJob with key := "b1", retries := 4, untilBuried := 0 }),
        ("r1", { baseJob with key := "r1" })] }

theorem alGet_alSet_self {α : Type} (l : List (String × α)) (k : String) (v : α) :
    alGet (alSet l k v) k = some v := by
  induction l with
  | nil => simp [alSet, alGet]
  | cons p l ih =>
    by_cases h : p.1 = k
    · simp [alSet, h, alGet]
    · simp [alSet, h, alGet, ih]

theorem alGet_alSet_ne {α : Type} (l : List (String × α)) {k k2 : String} (v : α)
    (h : k ≠ k2) : alGet (alSet l k v) k2 = alGet l k2 := by
  induction l with
  | nil => simp [alSet, alGet, h]
  | cons p l ih =>
    by_cases hp : p.1 = k
    · simp [alSet, hp, alGet, h, hp ▸ h]
    · simp [alSet, hp, alGet, ih]

theorem alGet_alErase_self {α : Type} (l : List (String × α)) (k : String) :
    alGet (alErase l k) k = none := by
  induction l with
  | nil => simp [alErase, alGet]
  | cons p l ih =>
    by_cases h : p.1 = k
    · simp [alErase, h, ih]
    · simp [alErase, h, alGet, ih]

theorem alGet_alErase_ne {α : Type} (l : List (String × α)) {k k2 : String}
    (h : k ≠ k2) : alGet (alErase l k) k2 = alGet l k2 := by
  induction l with
  | nil => simp [alErase]
  | cons p l ih =>
    by_cases hp : p.1 = k
    · simp [alErase, hp, alGet, ih, h]
    · simp [alErase, hp, alGet, ih]

theorem mem_alSet {α : Type} {l : List (String × α)} {k : String} {v : α}
    {p : String × α} (h : p ∈ alSet l k v) : p = (k, v) ∨ p ∈ l := by
  induction l with
  | nil => simp [alSet] at h; simp [h]
  | cons q l ih =>
    by_cases hq : q.1 = k
    · simp [alSet, hq] at h
      rcases h with h | h
      · exact Or.inl h
      · exact Or.inr (List.mem_cons_of_mem _ h)
    · simp [alSet, hq] at h
      rcases h with h | h
      · exact Or.inr (h ▸ List.mem_cons_self _ _)
      · rcases ih h with h2 | h2
        · exact Or.inl h2
        · exact Or.inr (List.mem_cons_of_mem _ h2)

theorem mem_alErase {α : Type} {l : List (String × α)} {k : String}
    {p : String × α} (h : p ∈ alErase l k) : p ∈ l := by
  induction l with
  | nil => simp [alErase] at h
  | cons q l ih =>
    by_cases hq : q.1 = k
    · simp [alErase, hq] at h
      exact List.mem_cons_of_mem _ (ih h)
    · simp [alErase, hq] at h
      rcases h with h | h
      · exact h ▸ List.mem_cons_self _ _
      · exact List.mem_cons_of_mem _ (ih h)

theorem qGet_key {q : List QItem} {k : String} {it : QItem}
    (h : qGet q k = some it) : it.key = k := by
  induction q with
  | nil => simp [qGet] at h
  | cons a q ih =>
    by_cases ha : a.key = k
    · simp [qGet, ha] at h
      exact h ▸ ha
    · simp [qGet, ha] at h
      exact ih h

theorem qGet_none_of_not_mem {q : List QItem} {k : String}
    (h : k ∉ q.map QItem.key) : qGet q k = none := by
  induction q with
  | nil => simp [qGet]
  | cons a q ih =>
    simp only [List.map_cons, List.mem_cons] at h
    push_neg at h
    have ha : a.key ≠ k := fun he => h.1 he.symm
    simp [qGet, ha, ih h.2]

theorem qGet_qSetState_self {q : List QItem} {k : String} {it : QItem}
    (st : ItemState) (h : qGet q k = some it) :
    qGet (qSetState q k st) k = some { it with istate := st } := by
  induction q with
  | nil => simp [qGet] at h
  | cons a q ih =>
    by_cases ha : a.key = k
    · simp [qGet, ha] at h
      simp [qSetState, ha, qGet, h ▸ ha, ← h]
    · simp [qGet, ha] at h
      simp [qSetState, ha, qGet, ih h]

theorem qGet_qSetState_ne (q : List QItem) {k k2 : String} (st : ItemState)
    (h : k ≠ k2) : qGet (qSetState q k st) k2 = qGet q k2 := by
  induction q with
  | nil => simp [qSetState]
  | cons a q ih =>
    by_cases ha : a.key = k
    · simp [qSetState, ha, qGet, h]
    · simp [qSetState, ha, qGet, ih]

theorem qGet_qSetDelayAux_self {q : List QItem} {k : String} {it : QItem}
    (d : Nat) (h : qGet q k = some it) :
    qGet (qSetDelayAux q k d) k = some { it with delay := d } := by
  induction q with
  | nil => simp [qGet] at h
  | cons a q ih =>
    by_cases ha : a.key = k
    · simp [qGet, ha] at h
      simp [qSetDelayAux, ha, qGet, h ▸ ha, ← h]
    · simp [qGet, ha] at h
      simp [qSetDelayAux, ha, qGet, ih h]

theorem qGet_qSetDelayAux_ne (q : List QItem) {k k2 : String} (d : Nat)
    (h : k ≠ k2) : qGet (qSetDelayAux q k d) k2 = qGet q k2 := by
  induction q with
  | nil => simp [qSetDelayAux]
  | cons a q ih =>
    by_cases ha : a.key = k
    · simp [qSetDelayAux, ha, qGet, h]
    · simp [qSetDelayAux, ha, qGet, ih]

theorem qGet_qRemoveAux_self {q : List QItem} {k : String}
    (hnd : (q.map QItem.key).Nodup) : qGet (qRemoveAux q k) k = none := by
  induction q with
  | nil => simp [qRemoveAux, qGet]
  | cons a q ih =>
    rw [List.map_cons, List.nodup_cons] at hnd
    by_cases ha : a.key = k
    · simp [qRemoveAux, ha]
      exact qGet_none_of_not_mem (ha ▸ hnd.1)
    · simp [qRemoveAux, ha, qGet, ih hnd.2]

theorem qGet_qRemoveAux_ne (q : List QItem) {k k2 : String} (h : k ≠ k2) :
    qGet (qRemoveAux q k) k2 = qGet q k2 := by
  induction q with
  | nil => simp [qRemoveAux]
  | cons a q ih =>
    by_cases ha : a.key = k
    · simp [qRemoveAux, ha, qGet, h]
    · simp [qRemoveAux, ha, qGet, ih]

theorem mem_gkeys {gs : List String} {g : String} : g ∈ gkeys gs ↔ g ∈ gs := by
  induction gs with
  | nil => simp [gkeys]
  | cons a gs ih =>
    by_cases ha : a ∈ gkeys gs
    · simp [gkeys, ha, ih]
      intro h
      exact ih.1 (h ▸ ha)
    · simp [gkeys, ha, ih]

theorem occ_pos {gs : List String} {g : String} (h : g ∈ gs) : 0 < occ gs g := by
  induction gs with
  | nil => simp at h
  | cons a gs ih =>
    rcases List.mem_cons.1 h with h | h
    · simp [occ, h]
    · by_cases ha : a = g
      · simp [occ, ha]
      · simpa [occ, ha] using ih h

theorem lcount_bump (c : List (String × Int)) (g h : String) (d : Int) :
    lcount (bump c g d) h = lcount c h + (if h = g then d else 0) := by
  by_cases hg : h = g
  · subst hg
    simp [bump, lcount, alGet_alSet_self]
  · simp [bump, lcount, alGet_alSet_ne _ _ (fun he => hg he.symm), hg]

theorem lcount_foldl_bump (gs : List String) (c : List (String × Int)) (d : Int)
    (h : String) :
    lcount (gs.foldl (fun c g => bump c g d) c) h = lcount c h + d * (occ gs h : Int) := by
  induction gs generalizing c with
  | nil => simp [occ]
  | cons g gs ih =>
    simp only [List.foldl_cons]
    rw [ih, lcount_bump]
    by_cases hg : h = g
    · simp [occ, hg]
      ring
    · have hgh : g ≠ h := fun he => hg he.symm
      simp [occ, hg, hgh]

theorem getij_eq_ok {s : Server} {cr : ClientRequest} {crJob : Job} {it : QItem}
    {job : Job} (hjob : cr.job = some crJob) (hget : qGet s.q crJob.key = some it)
    (hrun : it.istate = ItemState.run) (hjm : alGet s.jobs it.key = some job)
    (hown : cr.clientID = job.reservedBy) : getij s cr = GetIJ.ok it job := by
  simp [getij, hjob, hget, hrun, hjm, hown]

theorem getij_eq_fail_noJob {s : Server} {cr : ClientRequest} (h : cr.job = none) :
    getij s cr = GetIJ.fail ErrBadRequest := by
  simp [getij, h]

theorem getij_eq_fail_absent {s : Server} {cr : ClientRequest} {crJob : Job}
    (hjob : cr.job = some crJob) (h : qGet s.q crJob.key = none) :
    getij s cr = GetIJ.fail ErrBadJob := by
  simp [getij, hjob, h]

theorem getij_eq_fail_notrun {s : Server} {cr : ClientRequest} {crJob : Job}
    {it : QItem} (hjob : cr.job = some crJob) (hget : qGet s.q crJob.key = some it)
    (h : it.istate ≠ ItemState.run) : getij s cr = GetIJ.fail ErrBadJob := by
  simp [getij, hjob, hget, h]

theorem getij_eq_fail_notowner {s : Server} {cr : ClientRequest} {crJob : Job}
    {it : QItem} {job : Job} (hjob : cr.job = some crJob)
    (hget : qGet s.q crJob.key = some it) (hrun : it.istate = ItemState.run)
    (hjm : alGet s.jobs it.key = some job) (h : cr.clientID ≠ job.reservedBy) :
    getij s cr = GetIJ.fail ErrMustReserve := by
  simp [getij, hjob, hget, hrun, hjm, h]

theorem handleRequest_dispatch {s : Server} {cr : ClientRequest} (aOK : Bool) (now : Nat)
    (htl : cr.token.length = tokenLength) (htk : cr.token = s.token)
    (hq : s.qDestroyed = false) (hgate : s.up = true ∨ s.drain = true) :
    handleRequest s cr aOK now =
      (match cr.method with
       | "ping" => (s, emptyReply)
       | "reserve" => handleReserve s cr
       | "jstart" => handleJstart s cr now
       | "jtouch" => handleJtouch s cr
       | "jarchive" => handleJarchive s cr aOK
       | "jrelease" => handleJrelease s cr
       | "jbury" => handleJbury s cr
       | "jkick" => handleJkick s cr
       | _ => (s, errReply ErrUnknownCommand)) := by
  unfold handleRequest
  rw [if_neg, if_neg]
  · intro hc
    rcases hc with hc | hc
    · rw [hq] at hc
      exact Bool.noConfusion hc
    · rcases hgate with hg | hg
      · rw [hg] at hc
        exact Bool.noConfusion hc.1
      · rw [hg] at hc
        exact Bool.noConfusion hc.2
  · intro hc
    rcases hc.1 with hc1 | hc1
    · exact hc1 htl
    · exact hc1 (by rw [tokenMatches, htk])

/-- C9: every job-mutating j* request (jstart, jtouch, jarchive, jrelease,
jbury) is rejected, without mutating the job or the queue, with
ErrBadRequest when it carries no Job, with ErrBadJob when the key is not in
the queue or the item is not in the run sub-queue, and with ErrMustReserve
when the requesting ClientID is not the reservation owner. -/
theorem c9_getij_rejections (s : Server) (cr : ClientRequest) (aOK : Bool) (now : Nat)
    (htl : cr.token.length = tokenLength) (htk : cr.token = s.token)
    (hq : s.qDestroyed = false) (hup : s.up = true)
    (hm : cr.method = "jstart" ∨ cr.method = "jtouch" ∨ cr.method = "jarchive" ∨
      cr.method = "jrelease" ∨ cr.method = "jbury") :
    (cr.job = none → handleRequest s cr aOK now = (s, errReply ErrBadRequest)) ∧
    (∀ crJob : Job, cr.job = some crJob →
      (qGet s.q crJob.key = none →
        handleRequest s cr aOK now = (s, errReply ErrBadJob)) ∧
      (∀ it : QItem, qGet s.q crJob.key = some it → it.istate ≠ ItemState.run →
        handleRequest s cr aOK now = (s, errReply ErrBadJob)) ∧
      (∀ it : QItem, ∀ job : Job, qGet s.q crJob.key = some it →
        it.istate = ItemState.run → alGet s.jobs it.key = some job →
        cr.clientID ≠ job.reservedBy →
        handleRequest s cr aOK now = (s, errReply ErrMustReserve))) := by
  rw [handleRequest_dispatch aOK now htl htk hq (Or.inl hup)]
  refine ⟨?_, ?_⟩
  · intro hnone
    rcases hm with h | h | h | h | h <;>
      simp [h, handleJstart, handleJtouch, handleJarchive, handleJrelease, handleJbury,
        getij_eq_fail_noJob hnone]
  · intro crJob hsome
    refine ⟨?_, ?_, ?_⟩
    · intro habs
      rcases hm with h | h | h | h | h <;>
        simp [h, handleJstart, handleJtouch, handleJarchive, handleJrelease, handleJbury,
          getij_eq_fail_absent hsome habs]
    · intro it hit hnr
      rcases hm with h | h | h | h | h <;>
        simp [h, handleJstart, handleJtouch, handleJarchive, handleJrelease, handleJbury,
          getij_eq_fail_notrun hsome hit hnr]
    · intro it job hit hrun hjm hown
      rcases hm with h | h | h | h | h <;>
        simp [h, handleJstart, handleJtouch, handleJarchive, handleJrelease, handleJbury,
          getij_eq_fail_notowner hsome hit hrun hjm hown]

/-- Witness for c9_getij_rejections at a concrete server and request: a
jbury request whose ClientID is not the reservation owner is rejected with
ErrMustReserve and the state is unchanged. -/
theorem c9_getij_rejections_witness :
    handleRequest srv1 { baseRequest with method := "jbury", clientID := 9, job := some j1 }
      true 0 = (srv1, errReply ErrMustReserve) := by
  exact ((c9_getij_rejections srv1
      { baseRequest with method := "jbury", clientID := 9, job := some j1 } true 0
      (by decide) (by decide) (by decide) (by decide) (by decide)).2 j1
      (by decide)).2.2 it1 j1 (by decide) (by decide) (by decide) (by decide)

/-- C5: for every request whose method is not ping, a token that is not of
the expected length or not equal (under the constant-time comparison) to the
server token yields exactly the error reply ErrPermissionDenied, with no
other handler logic run (the state is returned unchanged); a ping request is
exempt: its outcome does not depend on the token at all and is never
ErrPermissionDenied. -/
theorem c5_token_auth (s : Server) (cr : ClientRequest) (aOK : Bool) (now : Nat) :
    ((cr.token.length ≠ tokenLength ∨ ¬ tokenMatches cr.token s.token) →
      cr.method ≠ "ping" →
      handleRequest s cr aOK now = (s, errReply ErrPermissionDenied)) ∧
    (cr.method = "ping" →
      (∀ t : List Nat,
        handleRequest s { cr with token := t } aOK now = handleRequest s cr aOK now) ∧
      (handleRequest s cr aOK now).2.err ≠ ErrPermissionDenied) := by
  constructor
  · intro hbad hping
    unfold handleRequest
    rw [if_pos ⟨hbad, hping⟩]
  · intro hping
    constructor
    · intro t
      simp [handleRequest, hping]
    · simp only [handleRequest, hping]
      simp only [ne_eq, not_true_eq_false, and_false, if_false]
      split
      · show (errReply ErrClosedStop).err ≠ ErrPermissionDenied
        decide
      · show emptyReply.err ≠ ErrPermissionDenied
        decide

/-- Witness for c5_token_auth: a sstats request with a one-byte token is
rejected with exactly ErrPermissionDenied and an unchanged server, and a
ping request with the same bad token is not rejected that way. -/
theorem c5_token_auth_witness :
    handleRequest baseServer { baseRequest with method := "sstats", token := [9] } true 0 =
      (baseServer, errReply ErrPermissionDenied) ∧
    (handleRequest baseServer { baseRequest with method := "ping", token := [9] } true
        0).2.err ≠ ErrPermissionDenied := by
  constructor
  · exact (c5_token_auth baseServer
      { baseRequest with method := "sstats", token := [9] } true 0).1 (by decide) (by decide)
  · exact ((c5_token_auth baseServer
      { baseRequest with method := "ping", token := [9] } true 0).2 (by decide)).2

theorem qBury_run {s : Server} {k : String} {it : QItem}
    (hget : qGet s.q k = some it) (hrun : it.istate = ItemState.run) :
    qBury s.q k = some (qSetState s.q k ItemState.bury) := by
  simp [qBury, hget, hrun]

/-- C2: for every jrelease request whose job is found, in the run sub-queue,
and owned by the requesting client (handled by the old-version inline logic,
server.go lines 615-645): when the job exited with a non-zero exit code,
UntilBuried is decremented by exactly 1 (else kept); then if UntilBuried is
0 or below the item is buried, and otherwise the item delay is set to the
request Timeout and the item is released to the delay sub-queue. -/
theorem c2_jrelease (s : Server) (cr : ClientRequest) {crJob : Job} {it : QItem}
    {job : Job} (hjob : cr.job = some crJob) (hget : qGet s.q crJob.key = some it)
    (hrun : it.istate = ItemState.run) (hjm : alGet s.jobs it.key = some job)
    (hown : cr.clientID = job.reservedBy) :
    (alGet (handleJreleaseOld s cr).1.jobs it.key).map Job.untilBuried =
      some (if job.exited = true ∧ job.exitcode ≠ 0 then job.untilBuried - 1
            else job.untilBuried) ∧
    ((if job.exited = true ∧ job.exitcode ≠ 0 then job.untilBuried - 1
        else job.untilBuried) ≤ 0 →
      (handleJreleaseOld s cr).2 = emptyReply ∧
      qGet (handleJreleaseOld s cr).1.q it.key =
        some { it with istate := ItemState.bury }) ∧
    (0 < (if job.exited = true ∧ job.exitcode ≠ 0 then job.untilBuried - 1
        else job.untilBuried) →
      (handleJreleaseOld s cr).2 = emptyReply ∧
      qGet (handleJreleaseOld s cr).1.q it.key =
        some { it with istate := ItemState.delay, delay := cr.timeout }) := by
  have hget2 : qGet s.q it.key = some it := by rw [qGet_key hget]; exact hget
  have hko := getij_eq_ok hjob hget hrun hjm hown
  have hbury := qBury_run hget2 hrun
  have hsd : qSetDelay s.q it.key cr.timeout = some (qSetDelayAux s.q it.key cr.timeout) := by
    simp [qSetDelay, hget2]
  have hgd : qGet (qSetDelayAux s.q it.key cr.timeout) it.key =
      some { it with delay := cr.timeout } :=
    qGet_qSetDelayAux_self cr.timeout hget2
  have hrel : qRelease (qSetDelayAux s.q it.key cr.timeout) it.key =
      some (qSetState (qSetDelayAux s.q it.key cr.timeout) it.key ItemState.delay) := by
    simp [qRelease, hgd, hrun]
  by_cases hc : job.exited = true ∧ job.exitcode ≠ 0
  · simp only [if_pos hc]
    by_cases hb : job.untilBuried - 1 ≤ 0
    · refine ⟨?_, fun h0 => ⟨?_, ?_⟩, fun h0 => absurd hb (by omega)⟩ <;>
        simp [handleJreleaseOld, hko, releaseJobCore, hc, hb, hbury, alGet_alSet_self,
          qGet_qSetState_self ItemState.bury hget2]
    · refine ⟨?_, fun h0 => absurd h0 (by omega), fun h0 => ⟨?_, ?_⟩⟩ <;>
        simp [handleJreleaseOld, hko, releaseJobCore, hc, hb, hsd, hrel, alGet_alSet_self,
          qGet_qSetState_self ItemState.delay hgd]
  · simp only [if_neg hc]
    by_cases hb : job.untilBuried ≤ 0
    · refine ⟨?_, fun h0 => ⟨?_, ?_⟩, fun h0 => absurd hb (by omega)⟩ <;>
        simp [handleJreleaseOld, hko, releaseJobCore, hc, hb, hbury, alGet_alSet_self,
          qGet_qSetState_self ItemState.bury hget2]
    · refine ⟨?_, fun h0 => absurd h0 (by omega), fun h0 => ⟨?_, ?_⟩⟩ <;>
        simp [handleJreleaseOld, hko, releaseJobCore, hc, hb, hsd, hrel, alGet_alSet_self,
          qGet_qSetState_self ItemState.delay hgd]

/-- Witness for c2_jrelease: a failed job (exit code 1) with UntilBuried 3
owned by client 7 has UntilBuried decremented to 2 and is released to the
delay sub-queue with the request Timeout of 11. -/
theorem c2_jrelease_witness :
    (alGet (handleJreleaseOld
        { srv1 with jobs := [("k1", { j1 with exited := true, exitcode := 1 })] }
        { baseRequest with
            method := "jrelease"
            clientID := 7
            timeout := 11
            job := some j1 }).1.jobs "k1").map Job.untilBuried = some 2 ∧
    qGet (handleJreleaseOld
        { srv1 with jobs := [("k1", { j1 with exited := true, exitcode := 1 })] }
        { baseRequest with
            method := "jrelease"
            clientID := 7
            timeout := 11
            job := some j1 }).1.q "k1" =
      some { it1 with istate := ItemState.delay, delay := 11 } := by
  have h := @c2_jrelease
    { srv1 with jobs := [("k1", { j1 with exited := true, exitcode := 1 })] }
    { baseRequest with method := "jrelease", clientID := 7, timeout := 11, job := some j1 }
    j1 it1 { j1 with exited := true, exitcode := 1 }
    (by decide) (by decide) (by decide) (by decide) (by decide)
  refine ⟨?_, ?_⟩
  · have h1 := h.1
    simp only [show ({ j1 with exited := true, exitcode := 1 } : Job).exited = true by decide,
      show ({ j1 with exited := true, exitcode := 1 } : Job).exitcode = 1 by decide] at h1
    simpa using h1
  · have h2 := (h.2.2 (by decide)).2
    simpa using h2

theorem callback_fold_pos (gl : List String) (groups : List String) (st : Server)
    (hsub : ∀ g ∈ gl, g ∈ groups) (hpos : ∀ p ∈ st.sgroupcounts, 0 < p.2) :
    ∀ p ∈ (gl.foldl
        (fun st g =>
          { st with
              sgroupcounts := alSet st.sgroupcounts g (occ groups g : Int)
              schedCalls := st.schedCalls ++ [(g, (occ groups g : Int))] })
        st).sgroupcounts, 0 < p.2 := by
  induction gl generalizing st with
  | nil => exact hpos
  | cons a gl ih =>
    intro p hp
    refine ih _ (fun g hg => hsub g (List.mem_cons_of_mem _ hg)) ?_ p hp
    intro r hr
    rcases mem_alSet hr with h | h
    · have hposa : 0 < occ groups a := occ_pos (hsub a (List.mem_cons_self _ _))
      rw [h]
      show (0 : Int) < (occ groups a : Int)
      exact_mod_cast hposa
    · exact hpos r h

/-- C3 counterexample: at a server whose count for group g is exactly 1,
decrementGroupCount deletes the group from sgroupcounts and sgtr but makes
no Sched.Schedule call at all; in particular the last Schedule update for g
is not one with count 0, refuting the claim as stated. -/
theorem c3_counterexample :
    alGet (decrementGroupCount srv3 "g").sgroupcounts "g" = none ∧
    alGet (decrementGroupCount srv3 "g").sgtr "g" = none ∧
    (decrementGroupCount srv3 "g").schedCalls = [] ∧
    ¬ (decrementGroupCount srv3 "g").schedCalls.getLast? = some ("g", 0) := by
  decide

/-- C3 (amended): after decrementGroupCount, and after the ready-added
callback, every entry of sgroupcounts is positive (so a count is positive or
the tag is absent, never negative); when a decrement makes the count reach 0
or below, both sgroupcounts and sgtr lose the tag and no Sched.Schedule call
is made for it; while the decremented count stays positive, Sched.Schedule
is called with exactly the new count. -/
theorem c3_group_counts (s : Server) (g : String) (jobdata : List Job)
    (place : Job → String) (hpos : ∀ p ∈ s.sgroupcounts, 0 < p.2) :
    (∀ p ∈ (decrementGroupCount s g).sgroupcounts, 0 < p.2) ∧
    (∀ p ∈ (readyAddedCallback s jobdata place).sgroupcounts, 0 < p.2) ∧
    ((alGet s.sgroupcounts g).getD 0 - 1 ≤ 0 →
      alGet (decrementGroupCount s g).sgroupcounts g = none ∧
      alGet (decrementGroupCount s g).sgtr g = none ∧
      (decrementGroupCount s g).schedCalls = s.schedCalls) ∧
    (0 < (alGet s.sgroupcounts g).getD 0 - 1 →
      alGet (decrementGroupCount s g).sgroupcounts g =
        some ((alGet s.sgroupcounts g).getD 0 - 1) ∧
      (decrementGroupCount s g).schedCalls =
        s.schedCalls ++ [(g, (alGet s.sgroupcounts g).getD 0 - 1)]) := by
  refine ⟨?_, ?_, ?_, ?_⟩
  · intro p hp
    by_cases hn : (alGet s.sgroupcounts g).getD 0 - 1 ≤ 0
    · rw [decrementGroupCount, if_pos hn] at hp
      exact hpos p (mem_alErase hp)
    · rw [decrementGroupCount, if_neg hn] at hp
      rcases mem_alSet hp with h | h
      · rw [h]
        omega
      · exact hpos p h
  · by_cases hrc : s.rc = ""
    · intro p hp
      rw [readyAddedCallback, if_pos hrc] at hp
      exact hpos p hp
    · rw [readyAddedCallback, if_neg hrc]
      exact callback_fold_pos _ _ _ (fun h hg => mem_gkeys.1 hg) hpos
  · intro hn
    rw [decrementGroupCount, if_pos hn]
    exact ⟨alGet_alErase_self _ _, alGet_alErase_self _ _, rfl⟩
  · intro hn
    rw [decrementGroupCount, if_neg (by omega)]
    exact ⟨alGet_alSet_self _ _ _, rfl⟩

/-- Witness for c3_group_counts: with the count of g at 2, the decrement
keeps g with count 1, records the Schedule call with count 1, and every
remaining entry is positive. -/
theorem c3_group_counts_witness :
    alGet (decrementGroupCount srv1 "g").sgroupcounts "g" = some 1 ∧
    (decrementGroupCount srv1 "g").schedCalls = [("g", 1)] := by
  have h := c3_group_counts srv1 "g" [] (fun j => j.schedulerGroup) (by decide)
  have h4 := h.2.2.2 (by decide)
  exact ⟨by simpa using h4.1, by simpa using h4.2⟩

/-- C7: for every add request (old-version handler, DB writes before memory):
when the env store fails the reply is ErrDBError and nothing changes at all;
when the new-jobs write fails the reply is ErrDBError and the in-memory
queue, jobs heap and rpl index are unchanged; and the reply carries the
{Added, Existed} acknowledgement (empty err) only when both DB writes have
succeeded. -/
theorem c7_add_persistence (s : Server) (e : String) (js : List Job)
    (envOK jobsOK : Bool) :
    (envOK = false →
      handleAddOld s (some e) (some js) envOK jobsOK = (s, errReply ErrDBError)) ∧
    (envOK = true → jobsOK = false →
      (handleAddOld s (some e) (some js) envOK jobsOK).2 = errReply ErrDBError ∧
      (handleAddOld s (some e) (some js) envOK jobsOK).1.q = s.q ∧
      (handleAddOld s (some e) (some js) envOK jobsOK).1.jobs = s.jobs ∧
      (handleAddOld s (some e) (some js) envOK jobsOK).1.rpl = s.rpl) ∧
    ((handleAddOld s (some e) (some js) envOK jobsOK).2.err = "" →
      envOK = true ∧ jobsOK = true) := by
  refine ⟨?_, ?_, ?_⟩
  · intro h
    simp [handleAddOld, h]
  · intro h1 h2
    simp [handleAddOld, h1, h2]
  · intro h
    cases envOK with
    | false => simp [handleAddOld, errReply, emptyReply, ErrDBError] at h
    | true =>
      cases jobsOK with
      | false => simp [handleAddOld, errReply, emptyReply, ErrDBError] at h
      | true => exact ⟨rfl, rfl⟩

/-- Witness for c7_add_persistence: with the new-jobs write failing, the
reply is ErrDBError and the queue, jobs heap and rpl are untouched. -/
theorem c7_add_persistence_witness :
    (handleAddOld baseServer (some "e") (some [baseJob]) true false).2 =
      errReply ErrDBError ∧
    (handleAddOld baseServer (some "e") (some [baseJob]) true false).1.q = baseServer.q ∧
    (handleAddOld baseServer (some "e") (some [baseJob]) true false).1.rpl =
      baseServer.rpl := by
  have h := (c7_add_persistence baseServer "e" [baseJob] true false).2.1 rfl rfl
  exact ⟨h.1, h.2.1, h.2.2.2⟩

theorem lIncrement_some {l : Limiter} {gs : List String} {l1 : Limiter}
    (h : lIncrement l gs = some l1) :
    l1 = { l with counts := gs.foldl (fun c g => bump c g 1) l.counts } := by
  rw [lIncrement] at h
  split at h
  · exact (Option.some.inj h).symm
  · exact Option.noConfusion h

/-- C10: for every reserve attempt through reserveWithLimits with a
scheduler group that encodes limit groups: when the all-or-nothing Increment
fails, the attempt behaves exactly as if nothing were ready, with no state
change at all; when Increment succeeds but no item is reserved, the same
groups are decremented so every limit-group count is unchanged (and the
queue is unchanged); and when an item is reserved, the incremented groups
are recorded on its job for later decrement. -/
theorem c10_reserve_limits (s : Server) (g : String)
    (hlg : schedGroupToLimitGroups g ≠ []) :
    (lIncrement s.limiter (schedGroupToLimitGroups g) = none →
      reserveWithLimits s (some g) = (s, RWLResult.nothingReady)) ∧
    (∀ l1 : Limiter, lIncrement s.limiter (schedGroupToLimitGroups g) = some l1 →
      qReserve s.q (some g) = none →
      (reserveWithLimits s (some g)).2 = RWLResult.nothingReady ∧
      (reserveWithLimits s (some g)).1.q = s.q ∧
      ∀ h : String,
        lcount (reserveWithLimits s (some g)).1.limiter.counts h =
          lcount s.limiter.counts h) ∧
    (∀ l1 : Limiter, ∀ it : QItem, ∀ q2 : List QItem, ∀ j : Job,
      lIncrement s.limiter (schedGroupToLimitGroups g) = some l1 →
      qReserve s.q (some g) = some (it, q2) →
      alGet s.jobs it.key = some j →
      (reserveWithLimits s (some g)).2 = RWLResult.found it ∧
      (alGet (reserveWithLimits s (some g)).1.jobs it.key).map
          Job.limitGroupsIncremented = some (schedGroupToLimitGroups g)) := by
  refine ⟨?_, ?_, ?_⟩
  · intro hinc
    simp [reserveWithLimits, hlg, hinc]
  · intro l1 hinc hq
    have hl1 := lIncrement_some hinc
    refine ⟨?_, ?_, ?_⟩
    · simp [reserveWithLimits, hlg, hinc, hq]
    · simp [reserveWithLimits, hlg, hinc, hq]
    · intro h
      simp only [reserveWithLimits, ne_eq, hlg, not_false_eq_true, if_true, hinc, hq]
      rw [hl1]
      show lcount ((schedGroupToLimitGroups g).foldl (fun c g => bump c g (-1))
          ((schedGroupToLimitGroups g).foldl (fun c g => bump c g 1) s.limiter.counts)) h =
        lcount s.limiter.counts h
      rw [lcount_foldl_bump, lcount_foldl_bump]
      ring
  · intro l1 it q2 j hinc hq hjm
    constructor
    · simp [reserveWithLimits, hlg, hinc, hq, hjm]
    · simp [reserveWithLimits, hlg, hinc, hq, hjm, alGet_alSet_self]

/-- Witness for c10_reserve_limits: reserving with scheduler group b!lg1
(limit group lg1, limit 1, count 0) succeeds and records lg1 on the job. -/
theorem c10_reserve_limits_witness :
    (reserveWithLimits srv10 (some "b!lg1")).2 =
      RWLResult.found { it10 with istate := ItemState.run } ∧
    (alGet (reserveWithLimits srv10 (some "b!lg1")).1.jobs "k1").map
      Job.limitGroupsIncremented = some ["lg1"] := by
  have h := (c10_reserve_limits srv10 "b!lg1" (by decide)).2.2
    { limits := [("lg1", 1)], counts := [("lg1", 1)] }
    { it10 with istate := ItemState.run }
    [{ it10 with istate := ItemState.run }]
    { baseJob with key := "k1" }
    (by decide) (by decide) (by decide)
  refine ⟨h.1, ?_⟩
  rw [show ({ it10 with istate := ItemState.run } : QItem).key = "k1" from rfl] at h
  rw [h.2]
  decide

theorem decrementGroupCount_jobs (s : Server) (g : String) :
    (decrementGroupCount s g).jobs = s.jobs := by
  simp only [decrementGroupCount]
  split <;> rfl

theorem decrementGroupCount_db (s : Server) (g : String) :
    (decrementGroupCount s g).db = s.db := by
  simp only [decrementGroupCount]
  split <;> rfl

theorem decrementGroupCount_q (s : Server) (g : String) :
    (decrementGroupCount s g).q = s.q := by
  simp only [decrementGroupCount]
  split <;> rfl

theorem decrementGroupCount_rpl (s : Server) (g : String) :
    (decrementGroupCount s g).rpl = s.rpl := by
  simp only [decrementGroupCount]
  split <;> rfl

theorem decrementGroupCount_count_self (s : Server) (g : String) :
    alGet (decrementGroupCount s g).sgroupcounts g =
      (if (alGet s.sgroupcounts g).getD 0 - 1 ≤ 0 then none
       else some ((alGet s.sgroupcounts g).getD 0 - 1)) := by
  by_cases h : (alGet s.sgroupcounts g).getD 0 - 1 ≤ 0
  · rw [decrementGroupCount]
    simp only [h, if_pos]
    simp [alGet_alErase_self]
  · rw [decrementGroupCount]
    simp only [h, if_neg, if_false]
    simp [alGet_alSet_self, h]

theorem rplDelete_not_mem (r : List (String × List String)) (rg k : String) :
    k ∉ (alGet (rplDelete r rg k) rg).getD [] := by
  unfold rplDelete
  cases h : alGet r rg with
  | none => simp [h]
  | some ks => simp [h, alGet_alSet_self]

theorem jarchive_success_effects {s : Server} {cr : ClientRequest} {crJob : Job}
    {it : QItem} {job : Job}
    (hjob : cr.job = some crJob) (hget : qGet s.q crJob.key = some it)
    (hrun : it.istate = ItemState.run) (hjm : alGet s.jobs it.key = some job)
    (hown : cr.clientID = job.reservedBy) (hnd : (s.q.map QItem.key).Nodup)
    (hex : (updateAfterExit job cr.jobEndState s.limiter).1.exited = true)
    (hec : (updateAfterExit job cr.jobEndState s.limiter).1.exitcode = 0)
    (hst : (updateAfterExit job cr.jobEndState s.limiter).1.startTime ≠ 0)
    (het : (updateAfterExit job cr.jobEndState s.limiter).1.endTime ≠ 0) :
    (handleJarchive s cr true).2 = emptyReply ∧
    (alGet (handleJarchive s cr true).1.jobs it.key).map Job.state = some "complete" ∧
    (alGet (handleJarchive s cr true).1.jobs it.key).map Job.failReason = some "" ∧
    (alGet (handleJarchive s cr true).1.db.complete it.key).isSome = true ∧
    alGet (handleJarchive s cr true).1.db.live it.key = none ∧
    qGet (handleJarchive s cr true).1.q it.key = none ∧
    it.key ∉ (alGet (handleJarchive s cr true).1.rpl job.repGroup).getD [] ∧
    alGet (handleJarchive s cr true).1.sgroupcounts job.schedulerGroup =
      (if (alGet s.sgroupcounts job.schedulerGroup).getD 0 - 1 ≤ 0 then none
       else some ((alGet s.sgroupcounts job.schedulerGroup).getD 0 - 1)) := by
  have hget2 : qGet s.q it.key = some it := by rw [qGet_key hget]; exact hget
  have hko := getij_eq_ok hjob hget hrun hjm hown
  have hrem : qRemove s.q it.key = some (qRemoveAux s.q it.key) := by
    simp [qRemove, hget2]
  have hrg : (updateAfterExit job cr.jobEndState s.limiter).1.repGroup = job.repGroup := rfl
  have hsg : (updateAfterExit job cr.jobEndState s.limiter).1.schedulerGroup =
    job.schedulerGroup := rfl
  refine ⟨?_, ?_, ?_, ?_, ?_, ?_, ?_, ?_⟩
  · simp [handleJarchive, hko, hrun, hex, hec, hst, het, hrem]
  · simp [handleJarchive, hko, hrun, hex, hec, hst, het, hrem,
      decrementGroupCount_jobs, alGet_alSet_self]
  · simp [handleJarchive, hko, hrun, hex, hec, hst, het, hrem,
      decrementGroupCount_jobs, alGet_alSet_self]
  · simp [handleJarchive, hko, hrun, hex, hec, hst, het, hrem,
      decrementGroupCount_db, dbArchiveJob, alGet_alSet_self]
  · simp [handleJarchive, hko, hrun, hex, hec, hst, het, hrem,
      decrementGroupCount_db, dbArchiveJob, alGet_alErase_self]
  · simp [handleJarchive, hko, hrun, hex, hec, hst, het, hrem,
      decrementGroupCount_q, qGet_qRemoveAux_self hnd]
  · simp only [handleJarchive, hko, hrun, hex, hec, hst, het, hrem]
    simp [decrementGroupCount_rpl, hrg, rplDelete_not_mem]
  · simp only [handleJarchive, hko, hrun, hex, hec, hst, het, hrem]
    simp [hsg, decrementGroupCount_count_self]

/-- C1: for every jarchive request whose job is found and owned by the
requesting client: an item not in the run sub-queue is rejected with
ErrBadJob with nothing changed; a merged job without clean-exit evidence
(Exited, Exitcode 0, start and end times set) is rejected with ErrBadRequest
with no change to the queue, DB, rpl or scheduler-group counts; otherwise,
with the DB write succeeding, the job state becomes complete, its FailReason
is cleared, the job is archived to the DB complete bucket and leaves the
live bucket, the item is removed from the queue, the key is removed from the
rpl RepGroup index, and the scheduler-group count is decremented (the group
being deleted when the count reaches 0). -/
theorem c1_jarchive (s : Server) (cr : ClientRequest) (aOK : Bool)
    (crJob : Job) (it : QItem) (job : Job)
    (hjob : cr.job = some crJob) (hget : qGet s.q crJob.key = some it)
    (hjm : alGet s.jobs it.key = some job) (hown : cr.clientID = job.reservedBy)
    (hnd : (s.q.map QItem.key).Nodup) :
    (it.istate ≠ ItemState.run →
      handleJarchive s cr aOK = (s, errReply ErrBadJob)) ∧
    (it.istate = ItemState.run →
      ((updateAfterExit job cr.jobEndState s.limiter).1.exited = false ∨
        (updateAfterExit job cr.jobEndState s.limiter).1.exitcode ≠ 0 ∨
        (updateAfterExit job cr.jobEndState s.limiter).1.startTime = 0 ∨
        (updateAfterExit job cr.jobEndState s.limiter).1.endTime = 0) →
      (handleJarchive s cr aOK).2 = errReply ErrBadRequest ∧
      (handleJarchive s cr aOK).1.q = s.q ∧
      (handleJarchive s cr aOK).1.db = s.db ∧
      (handleJarchive s cr aOK).1.rpl = s.rpl ∧
      (handleJarchive s cr aOK).1.sgroupcounts = s.sgroupcounts) ∧
    (it.istate = ItemState.run → aOK = true →
      (updateAfterExit job cr.jobEndState s.limiter).1.exited = true →
      (updateAfterExit job cr.jobEndState s.limiter).1.exitcode = 0 →
      (updateAfterExit job cr.jobEndState s.limiter).1.startTime ≠ 0 →
      (updateAfterExit job cr.jobEndState s.limiter).1.endTime ≠ 0 →
      (handleJarchive s cr aOK).2 = emptyReply ∧
      (alGet (handleJarchive s cr aOK).1.jobs it.key).map Job.state = some "complete" ∧
      (alGet (handleJarchive s cr aOK).1.jobs it.key).map Job.failReason = some "" ∧
      (alGet (handleJarchive s cr aOK).1.db.complete it.key).isSome = true ∧
      alGet (handleJarchive s cr aOK).1.db.live it.key = none ∧
      qGet (handleJarchive s cr aOK).1.q it.key = none ∧
      it.key ∉ (alGet (handleJarchive s cr aOK).1.rpl job.repGroup).getD [] ∧
      alGet (handleJarchive s cr aOK).1.sgroupcounts job.schedulerGroup =
        (if (alGet s.sgroupcounts job.schedulerGroup).getD 0 - 1 ≤ 0 then none
         else some ((alGet s.sgroupcounts job.schedulerGroup).getD 0 - 1))) := by
  refine ⟨?_, ?_, ?_⟩
  · intro hnr
    simp [handleJarchive, getij_eq_fail_notrun hjob hget hnr]
  · intro hrun hval
    have hko := getij_eq_ok hjob hget hrun hjm hown
    refine ⟨?_, ?_, ?_, ?_, ?_⟩ <;> simp [handleJarchive, hko, hrun, hval]
  · intro hrun haOK hex hec hst het
    subst haOK
    exact jarchive_success_effects hjob hget hrun hjm hown hnd hex hec hst het

/-- Witness for c1_jarchive: archiving a cleanly exited reserved job removes
it from queue, live bucket and rpl, marks it complete in the complete
bucket, and decrements the scheduler-group count of g from 2 to 1. -/
theorem c1_jarchive_witness :
    (handleJarchive
        { srv1 with jobs := [("k1", { j1 with schedulerGroup := "g", startTime := 4 })] }
        { baseRequest with
            method := "jarchive"
            clientID := 7
            job := some j1
            jobEndState := { exited := true, exitcode := 0, endTime := 9 } }
        true).2 = emptyReply ∧
    qGet (handleJarchive
        { srv1 with jobs := [("k1", { j1 with schedulerGroup := "g", startTime := 4 })] }
        { baseRequest with
            method := "jarchive"
            clientID := 7
            job := some j1
            jobEndState := { exited := true, exitcode := 0, endTime := 9 } }
        true).1.q "k1" = none ∧
    alGet (handleJarchive
        { srv1 with jobs := [("k1", { j1 with schedulerGroup := "g", startTime := 4 })] }
        { baseRequest with
            method := "jarchive"
            clientID := 7
            job := some j1
            jobEndState := { exited := true, exitcode := 0, endTime := 9 } }
        true).1.sgroupcounts "g" = some 1 := by
  have h := c1_jarchive
    { srv1 with jobs := [("k1", { j1 with schedulerGroup := "g", startTime := 4 })] }
    { baseRequest with
        method := "jarchive"
        clientID := 7
        job := some j1
        jobEndState := { exited := true, exitcode := 0, endTime := 9 } }
    true j1 it1 { j1 with schedulerGroup := "g", startTime := 4 }
    (by decide) (by decide) (by decide) (by decide) (by decide)
  have hs := h.2.2 (by decide) rfl (by decide) (by decide) (by decide) (by decide)
  refine ⟨hs.1, by simpa using hs.2.2.2.2.2.1, ?_⟩
  have hc := hs.2.2.2.2.2.2.2
  simpa using hc

/-- C4 counterexample: the claim as stated fails on the code three ways.
With the runner command empty (srv4a), a FirstReserve request for group g
whose sgroupcounts entry is absent is not skipped: the ready item is
reserved and returned. And a request without FirstReserve does not always
consult the queue: during drain (srv4b) the ready item stays put and no job
is returned, and a zero-ClientID request is rejected outright. -/
theorem c4_counterexample :
    (handleReserve srv4a cr4a).2.jobKey = some "k" ∧
    handleReserve srv4b cr4b = (srv4b, emptyReply) ∧
    (handleReserve srv4a cr4c).2 = errReply ErrBadRequest := by
  decide

/-- C4 (amended): for a reserve request with a non-zero ClientID on a
non-draining server: if it supplies a scheduler group, has FirstReserve set,
the server has a runner command configured, and sgroupcounts of the group is
absent or 0, then the dispatcher replies as if nothing were ready without
touching the queue; a request without FirstReserve set (or with no runner
command configured), whose group encodes no limit groups, consults the
queue: an eligible ready item is reserved and returned when one exists, and
the empty reply returned otherwise. -/
theorem c4_first_reserve (s : Server) (cr : ClientRequest)
    (hid : cr.clientID ≠ 0) (hdr : s.drain = false) :
    (cr.schedulerGroup ≠ "" → cr.firstReserve = true → s.rc ≠ "" →
      (alGet s.sgroupcounts cr.schedulerGroup).getD 0 = 0 →
      handleReserve s cr = (s, emptyReply)) ∧
    ((cr.firstReserve = false ∨ s.rc = "") →
      schedGroupToLimitGroups cr.schedulerGroup = [] →
      (∀ it : QItem, ∀ q2 : List QItem,
        qReserve s.q (reserveGroupArg cr) = some (it, q2) →
        (handleReserve s cr).2.jobKey = some it.key) ∧
      (qReserve s.q (reserveGroupArg cr) = none →
        handleReserve s cr = (s, emptyReply))) := by
  constructor
  · intro hg hfr hrc hcnt
    simp [handleReserve, hid, hdr, hg, hfr, hrc, hcnt]
  · intro hfr hlg
    by_cases hg : cr.schedulerGroup = ""
    · constructor
      · intro it q2 hres
        rw [reserveGroupArg, if_neg (by simp [hg])] at hres
        simp [handleReserve, hid, hdr, hg, reserveWithLimits, hres]
      · intro hres
        rw [reserveGroupArg, if_neg (by simp [hg])] at hres
        simp [handleReserve, hid, hdr, hg, reserveWithLimits, hres]
    · have hskip : ¬(cr.firstReserve = true ∧ s.rc ≠ "" ∧
          (alGet s.sgroupcounts cr.schedulerGroup).getD 0 = 0) := by
        rcases hfr with h | h
        · intro hc
          rw [h] at hc
          exact Bool.noConfusion hc.1
        · intro hc
          exact hc.2.1 h
      constructor
      · intro it q2 hres
        rw [reserveGroupArg, if_pos hg] at hres
        simp [handleReserve, hid, hdr, hg, hskip, reserveWithLimits, hlg, hres]
      · intro hres
        rw [reserveGroupArg, if_pos hg] at hres
        simp [handleReserve, hid, hdr, hg, hskip, reserveWithLimits, hlg, hres]

/-- Witness for c4_first_reserve: with a runner command configured and no
sgroupcounts entry for g, the first-reserve request is answered as if
nothing were ready even though a ready item exists; without FirstReserve
(runner command empty) the same queue yields the job. -/
theorem c4_first_reserve_witness :
    handleReserve srv4skip cr4a = (srv4skip, emptyReply) ∧
    (handleReserve srv4a cr4b).2.jobKey = some "k" := by
  constructor
  · exact (c4_first_reserve srv4skip cr4a (by decide) rfl).1 (by decide) rfl
      (by decide) (by decide)
  · exact ((c4_first_reserve srv4a cr4b (by decide) rfl).2 (by decide) (by decide)).1
      { it4 with istate := ItemState.run } [{ it4 with istate := ItemState.run }] (by decide)

/-- C6: while the server is in drain state (and authenticated, with a live
queue): every reserve request with a non-zero ClientID returns the empty
reply - no job, no error - and leaves the state untouched, even if ready
items exist; every other modelled method is dispatched to its handler
exactly as when not draining (the drain flag gates only reserve), and in
particular a jarchive of an in-flight cleanly exited job still succeeds,
archiving it to the DB complete bucket. -/
theorem c6_drain (s : Server) (cr : ClientRequest) (aOK : Bool) (now : Nat)
    (htl : cr.token.length = tokenLength) (htk : cr.token = s.token)
    (hq : s.qDestroyed = false) (hdr : s.drain = true) :
    (cr.method = "reserve" → cr.clientID ≠ 0 →
      handleRequest s cr aOK now = (s, emptyReply)) ∧
    (cr.method = "jstart" → handleRequest s cr aOK now = handleJstart s cr now) ∧
    (cr.method = "jtouch" → handleRequest s cr aOK now = handleJtouch s cr) ∧
    (cr.method = "jarchive" → handleRequest s cr aOK now = handleJarchive s cr aOK) ∧
    (cr.method = "jrelease" → handleRequest s cr aOK now = handleJrelease s cr) ∧
    (cr.method = "jbury" → handleRequest s cr aOK now = handleJbury s cr) ∧
    (cr.method = "jkick" → handleRequest s cr aOK now = handleJkick s cr) ∧
    (cr.method = "jarchive" → aOK = true →
      (s.q.map QItem.key).Nodup →
      ∀ crJob : Job, ∀ it : QItem, ∀ job : Job,
        cr.job = some crJob → qGet s.q crJob.key = some it →
        it.istate = ItemState.run → alGet s.jobs it.key = some job →
        cr.clientID = job.reservedBy →
        (updateAfterExit job cr.jobEndState s.limiter).1.exited = true →
        (updateAfterExit job cr.jobEndState s.limiter).1.exitcode = 0 →
        (updateAfterExit job cr.jobEndState s.limiter).1.startTime ≠ 0 →
        (updateAfterExit job cr.jobEndState s.limiter).1.endTime ≠ 0 →
        (handleRequest s cr aOK now).2 = emptyReply ∧
        (alGet (handleRequest s cr aOK now).1.db.complete it.key).isSome = true) := by
  have hd := handleRequest_dispatch aOK now htl htk hq (Or.inr hdr)
  refine ⟨?_, ?_, ?_, ?_, ?_, ?_, ?_, ?_⟩
  · intro hm hid
    rw [hd]
    simp [hm, handleReserve, hid, hdr]
  · intro hm
    rw [hd]
    simp [hm]
  · intro hm
    rw [hd]
    simp [hm]
  · intro hm
    rw [hd]
    simp [hm]
  · intro hm
    rw [hd]
    simp [hm]
  · intro hm
    rw [hd]
    simp [hm]
  · intro hm
    rw [hd]
    simp [hm]
  · intro hm haok hnd crJob it job hjob hget hrun hjm hown hex hec hst het
    subst haok
    have e : handleRequest s cr true now = handleJarchive s cr true := by
      rw [hd]
      simp [hm]
    rw [e]
    have h := jarchive_success_effects hjob hget hrun hjm hown hnd hex hec hst het
    exact ⟨h.1, h.2.2.2.1⟩

/-- Witness for c6_drain: on a draining, not-up server a reserve request
returns the empty reply with the ready item untouched, and a jarchive of the
in-flight job k1 still succeeds, placing it in the complete bucket. -/
theorem c6_drain_witness :
    handleRequest srv6r { baseRequest with method := "reserve", clientID := 5 } true 0 =
      (srv6r, emptyReply) ∧
    (handleRequest srv6a
        { baseRequest with
            method := "jarchive"
            clientID := 7
            job := some j1
            jobEndState := { exited := true, exitcode := 0, endTime := 9 } }
        true 0).2 = emptyReply ∧
    (alGet (handleRequest srv6a
        { baseRequest with
            method := "jarchive"
            clientID := 7
            job := some j1
            jobEndState := { exited := true, exitcode := 0, endTime := 9 } }
        true 0).1.db.complete "k1").isSome = true := by
  refine ⟨?_, ?_⟩
  · exact (c6_drain srv6r { baseRequest with method := "reserve", clientID := 5 } true 0
      (by decide) (by decide) (by decide) (by decide)).1 rfl (by decide)
  · have h := (c6_drain srv6a
      { baseRequest with
          method := "jarchive"
          clientID := 7
          job := some j1
          jobEndState := { exited := true, exitcode := 0, endTime := 9 } }
      true 0 (by decide) (by decide) (by decide) (by decide)).2.2.2.2.2.2.2
      rfl rfl (by decide) j1 it1 { j1 with schedulerGroup := "g", startTime := 4 }
      (by decide) (by decide) (by decide) (by decide) (by decide)
      (by decide) (by decide) (by decide) (by decide)
    exact ⟨h.1, h.2⟩

theorem qGet_mem_keys {q : List QItem} {k : String} {it : QItem}
    (h : qGet q k = some it) : k ∈ q.map QItem.key := by
  by_contra hk
  rw [qGet_none_of_not_mem hk] at h
  exact Option.noConfusion h

theorem isBuried_iff {q : List QItem} {k : String} :
    isBuried q k = true ↔ ∃ it, qGet q k = some it ∧ it.istate = ItemState.bury := by
  unfold isBuried
  cases h : qGet q k with
  | none => simp
  | some it => simp

theorem qSetState_keys (q : List QItem) (k : String) (st : ItemState) :
    (qSetState q k st).map QItem.key = q.map QItem.key := by
  induction q with
  | nil => rfl
  | cons a q ih =>
    by_cases ha : a.key = k
    · simp [qSetState, ha]
    · simp [qSetState, ha, ih]

theorem alGet_alSet_isSome {α : Type} {m : List (String × α)} {k k2 : String} {v : α}
    (h : (alGet m k2).isSome = true) : (alGet (alSet m k v) k2).isSome = true := by
  by_cases hk : k = k2
  · subst hk
    rw [alGet_alSet_self]
    rfl
  · rw [alGet_alSet_ne _ v hk]
    exact h

theorem kickStep_not_buried {s : Server} {n : Nat} {k : String}
    (hb : isBuried s.q k = false) : kickStep (s, n) k = (s, n) := by
  unfold isBuried at hb
  cases h : qGet s.q k with
  | none => simp [kickStep, h]
  | some it =>
    rw [h] at hb
    simp at hb
    simp [kickStep, h, hb]

theorem kickStep_buried {s : Server} {n : Nat} {k : String} {it : QItem} {job : Job}
    (hq : qGet s.q k = some it) (hb : it.istate = ItemState.bury)
    (hj : alGet s.jobs k = some job) :
    kickStep (s, n) k =
      ({ s with
          q := qSetState s.q k ItemState.ready
          jobs := alSet s.jobs k
            { job with untilBuried := (job.retries : Int) + 1, state := "ready" }
          db := dbUpdateLive s.db k
            { job with untilBuried := (job.retries : Int) + 1, state := "ready" } },
       n + 1) := by
  have hkick : qKick s.q k = some (qSetState s.q k ItemState.ready) := by
    simp [qKick, hq, hb]
  simp [kickStep, hq, hb, hkick, hj]

theorem jkick_fold (ks : List String) (s : Server) (n : Nat)
    (hnd : ks.Nodup)
    (hwf : ∀ kk ∈ s.q.map QItem.key, (alGet s.jobs kk).isSome = true) :
    (ks.foldl kickStep (s, n)).2 = n + (ks.filter (fun k => isBuried s.q k)).length ∧
    (∀ k ∈ ks, isBuried s.q k = true →
      qGet (ks.foldl kickStep (s, n)).1.q k =
        (qGet s.q k).map (fun it => { it with istate := ItemState.ready }) ∧
      (alGet (ks.foldl kickStep (s, n)).1.jobs k).map Job.untilBuried =
        (alGet s.jobs k).map (fun j => (j.retries : Int) + 1)) ∧
    (∀ k : String, k ∉ ks ∨ isBuried s.q k = false →
      qGet (ks.foldl kickStep (s, n)).1.q k = qGet s.q k ∧
      alGet (ks.foldl kickStep (s, n)).1.jobs k = alGet s.jobs k) := by
  induction ks generalizing s n with
  | nil => exact ⟨by simp, by simp, by simp⟩
  | cons a ks ih =>
    have hnda : a ∉ ks := (List.nodup_cons.1 hnd).1
    have hndt : ks.Nodup := (List.nodup_cons.1 hnd).2
    by_cases hb : isBuried s.q a = true
    · obtain ⟨ita, hqa, hba⟩ := isBuried_iff.1 hb
      have hja : (alGet s.jobs a).isSome = true := hwf a (qGet_mem_keys hqa)
      obtain ⟨job, hjob⟩ := Option.isSome_iff_exists.1 hja
      set job2 : Job :=
        { job with untilBuried := (job.retries : Int) + 1, state := "ready" } with hj2
      set s1 : Server :=
        { s with
            q := qSetState s.q a ItemState.ready
            jobs := alSet s.jobs a job2
            db := dbUpdateLive s.db a job2 } with hs1
      have hstep : kickStep (s, n) a = (s1, n + 1) := kickStep_buried hqa hba hjob
      have hkeys : s1.q.map QItem.key = s.q.map QItem.key := qSetState_keys _ _ _
      have hwf1 : ∀ kk ∈ s1.q.map QItem.key, (alGet s1.jobs kk).isSome = true := by
        intro kk hkk
        rw [hkeys] at hkk
        exact alGet_alSet_isSome (hwf kk hkk)
      have hQne : ∀ k : String, k ≠ a → qGet s1.q k = qGet s.q k := by
        intro k hk
        exact qGet_qSetState_ne _ _ fun he => hk he.symm
      have hJne : ∀ k : String, k ≠ a → alGet s1.jobs k = alGet s.jobs k := by
        intro k hk
        exact alGet_alSet_ne _ _ fun he => hk he.symm
      have hBne : ∀ k : String, k ≠ a → isBuried s1.q k = isBuried s.q k := by
        intro k hk
        unfold isBuried
        rw [hQne k hk]
      have ihh := ih s1 (n + 1) hndt hwf1
      simp only [List.foldl_cons, hstep]
      refine ⟨?_, ?_, ?_⟩
      · rw [ihh.1]
        have hfc : List.filter (fun k => isBuried s1.q k) ks =
            List.filter (fun k => isBuried s.q k) ks :=
          List.filter_congr fun k hk => hBne k fun he => hnda (he ▸ hk)
        rw [hfc]
        simp [List.filter_cons, hb]
        omega
      · intro k hk hbk
        rcases List.mem_cons.1 hk with hk | hk
        · subst hk
          have h3 := ihh.2.2 k (Or.inl hnda)
          refine ⟨?_, ?_⟩
          · rw [h3.1]
            rw [show qGet s1.q k = some { ita with istate := ItemState.ready } from
              qGet_qSetState_self _ hqa]
            rw [hqa]
            rfl
          · rw [h3.2]
            rw [show alGet s1.jobs k = some job2 from alGet_alSet_self _ _ _]
            rw [hjob]
            rfl
        · have hne : k ≠ a := fun he => hnda (he ▸ hk)
          have hbk1 : isBuried s1.q k = true := by
            rw [hBne k hne]
            exact hbk
          have h2 := ihh.2.1 k hk hbk1
          exact ⟨by rw [h2.1, hQne k hne], by rw [h2.2, hJne k hne]⟩
      · intro k hk
        rcases hk with hk | hk
        · have hka : k ≠ a := fun he => hk (he ▸ List.mem_cons_self a ks)
          have hkks : k ∉ ks := fun h2 => hk (List.mem_cons_of_mem _ h2)
          have h3 := ihh.2.2 k (Or.inl hkks)
          exact ⟨by rw [h3.1, hQne k hka], by rw [h3.2, hJne k hka]⟩
        · have hka : k ≠ a := by
            intro he
            rw [he] at hk
            rw [hk] at hb
            exact Bool.noConfusion hb
          have h3 := ihh.2.2 k (Or.inr (by rw [hBne k hka]; exact hk))
          exact ⟨by rw [h3.1, hQne k hka], by rw [h3.2, hJne k hka]⟩
    · have hb2 : isBuried s.q a = false := by simpa using hb
      have hstep : kickStep (s, n) a = (s, n) := kickStep_not_buried hb2
      have ihh := ih s n hndt hwf
      simp only [List.foldl_cons, hstep]
      refine ⟨?_, ?_, ?_⟩
      · rw [ihh.1]
        simp [List.filter_cons, hb2]
      · intro k hk hbk
        rcases List.mem_cons.1 hk with hk | hk
        · subst hk
          rw [hbk] at hb2
          exact Bool.noConfusion hb2
        · exact ihh.2.1 k hk hbk
      · intro k hk
        rcases hk with hk | hk
        · exact ihh.2.2 k (Or.inl fun h2 => hk (List.mem_cons_of_mem _ h2))
        · exact ihh.2.2 k (Or.inr hk)

/-- C8: for every jkick request with a known Keys list (no duplicates, on a
well-formed server): the reply has no error and its count equals the number
of listed keys whose item was in the bury sub-queue; exactly those keys are
kicked back to ready with their UntilBuried reset to Retries+1; every other
key - missing, not listed, or not buried - is left completely unchanged. -/
theorem c8_jkick (s : Server) (cr : ClientRequest) (ks : List String)
    (hks : cr.keys = some ks) (hnd : ks.Nodup)
    (hwf : ∀ kk ∈ s.q.map QItem.key, (alGet s.jobs kk).isSome = true) :
    (handleJkick s cr).2.err = "" ∧
    (handleJkick s cr).2.existed = (ks.filter (fun k => isBuried s.q k)).length ∧
    (∀ k ∈ ks, isBuried s.q k = true →
      qGet (handleJkick s cr).1.q k =
        (qGet s.q k).map (fun it => { it with istate := ItemState.ready }) ∧
      (alGet (handleJkick s cr).1.jobs k).map Job.untilBuried =
        (alGet s.jobs k).map (fun j => (j.retries : Int) + 1)) ∧
    (∀ k : String, k ∉ ks ∨ isBuried s.q k = false →
      qGet (handleJkick s cr).1.q k = qGet s.q k ∧
      alGet (handleJkick s cr).1.jobs k = alGet s.jobs k) := by
  have hf := jkick_fold ks s 0 hnd hwf
  refine ⟨?_, ?_, ?_, ?_⟩
  · simp [handleJkick, hks, emptyReply]
  · simp only [handleJkick, hks]
    simpa using hf.1
  · simpa only [handleJkick, hks] using hf.2.1
  · simpa only [handleJkick, hks] using hf.2.2

/-- Witness for c8_jkick on a server with buried b1 (Retries 4) and ready
r1: kicking keys b1, r1, zz kicks exactly one job; b1 ends up ready with
UntilBuried 5; r1 is untouched. -/
theorem c8_jkick_witness :
    (handleJkick srv8 { baseRequest with keys := some ["b1", "r1", "zz"] }).2.existed = 1 ∧
    qGet (handleJkick srv8 { baseRequest with keys := some ["b1", "r1", "zz"] }).1.q "b1" =
      some { itb with istate := ItemState.ready } ∧
    (alGet (handleJkick srv8
        { baseRequest with keys := some ["b1", "r1", "zz"] }).1.jobs "b1").map
      Job.untilBuried = some 5 ∧
    qGet (handleJkick srv8 { baseRequest with keys := some ["b1", "r1", "zz"] }).1.q "r1" =
      some itr := by
  have h := c8_jkick srv8 { baseRequest with keys := some ["b1", "r1", "zz"] }
    ["b1", "r1", "zz"] rfl (by decide) (by decide)
  refine ⟨?_, ?_, ?_, ?_⟩
  · rw [h.2.1]
    decide
  · rw [(h.2.2.1 "b1" (by decide) (by decide)).1]
    decide
  · rw [(h.2.2.1 "b1" (by decide) (by decide)).2]
    decide
  · rw [(h.2.2.2 "r1" (Or.inr (by decide))).1]
    decide

end WR
